import Mathlib

/-!
Verification development for the World Bank data visualization dashboard
(`app.py`).  The data acquisition-and-normalization pipeline is embedded
shallowly: pandas frames become lists of rows, cells become an explicit
`Cell` type, nullable floats become `Option ℚ`, and fallible steps return
`Except String`.  Each definition mirrors a concrete piece of the source.
-/

namespace WB

/-! ### Cells and frames

A pandas cell is a string, a number, or NaN/None (`Cell.null`).  A frame is
a list of column names together with rows of cells aligned positionally
with the columns. -/

inductive Cell where
  | str : String → Cell
  | num : ℚ → Cell
  | null : Cell
deriving DecidableEq, Repr

/-- Value of a row at a named column; missing columns read as null. -/
def cellAt (cols : List String) (row : List Cell) (c : String) : Cell :=
  match cols.findIdx? (fun x => x == c) with
  | none => Cell.null
  | some i => row.getD i Cell.null

/-! ### Column-name munging (app.py lines 24 and 51)

The source renames `YR`-prefixed year columns via
`c.replace('YR', '') if c.startswith('YR') else c` and classifies a column
as a year column via `str(c).isdigit()`. -/

/-- Removal of every (non-overlapping, left-to-right) occurrence of the
two-character pattern `YR`, mirroring the Python `str.replace('YR', '')`. -/
def stripYRocc : List Char → List Char
  | [] => []
  | [c] => [c]
  | c1 :: c2 :: cs =>
    if c1 = 'Y' ∧ c2 = 'R' then stripYRocc cs else c1 :: stripYRocc (c2 :: cs)

/-- Column renaming from app.py line 24: strip `YR` when the name starts
with `YR` (Python `startswith` is the first two characters being `Y R`). -/
def stripYR (c : String) : String :=
  if c.toList.take 2 = ['Y', 'R'] then (stripYRocc c.toList).asString else c

/-- Python `str.isdigit`: non-empty and all digit characters. -/
def isDigitStr (c : String) : Bool :=
  !c.toList.isEmpty && c.toList.all Char.isDigit

/-! ### melt and astype (app.py lines 26-30)

`pd.melt` raises `ValueError` when `value_name` is already one of the
frame columns; otherwise it stacks, one block per value column in order,
the identifier cells plus the (column-name, cell) pair.  `astype(int)` on
the melted `Year` column converts digit strings to numbers and raises on
anything non-numeric. -/

def melt (cols : List String) (rows : List (List Cell)) (idVars valueVars : List String)
    (varName valueName : String) : Except String (List String × List (List Cell)) :=
  if valueName ∈ cols then Except.error "melt value_name collision"
  else Except.ok (idVars ++ [varName, valueName],
    valueVars.flatMap (fun v =>
      rows.map (fun r => idVars.map (cellAt cols r) ++ [Cell.str v, cellAt cols r v])))

/-- Numeric value of a digit string, mirroring Python `int` on it. -/
def digitsVal (cs : List Char) : ℚ :=
  ((cs.foldl (fun a c => a * 10 + (c.toNat - 48)) 0 : Nat) : ℚ)

/-- Conversion of one cell by `astype(int)`: digit strings parse, numbers
truncate toward zero, anything else (including NaN) raises. -/
def astypeIntCell : Cell → Except String Cell
  | Cell.str s =>
    if isDigitStr s then Except.ok (Cell.num (digitsVal s.toList))
    else Except.error "astype int on non-numeric string"
  | Cell.num q => Except.ok (Cell.num ((q.num.tdiv (q.den : Int) : Int) : ℚ))
  | Cell.null => Except.error "astype int on null"

def astypeIntAt (i : Nat) (row : List Cell) : Except String (List Cell) :=
  match astypeIntCell (row.getD i Cell.null) with
  | Except.error e => Except.error e
  | Except.ok c => Except.ok (row.set i c)

def astypeIntCol (cols : List String) (rows : List (List Cell)) (c : String) :
    Except String (List (List Cell)) :=
  match cols.findIdx? (fun x => x == c) with
  | none => Except.error "column not found"
  | some i => rows.mapM (astypeIntAt i)

/-! ### The per-indicator normalization step (app.py lines 24-34)

Rename `YR` columns, split columns into identifier vs pure-year columns,
melt the year columns into `(identifier..., Year, value)` rows, convert
`Year` to int, and require an `economy` column (its absence makes the
caller skip the indicator). -/

def normalize (name : String) (cols : List String) (rows : List (List Cell)) :
    Except String (List String × List (List Cell)) :=
  let cols1 := cols.map stripYR
  let idVars := cols1.filter (fun c => !(isDigitStr c))
  let valueVars := cols1.filter (fun c => isDigitStr c)
  match melt cols1 rows idVars valueVars "Year" name with
  | Except.error e => Except.error e
  | Except.ok (mcols, mrows) =>
    match astypeIntCol mcols mrows "Year" with
    | Except.error e => Except.error e
    | Except.ok mrows2 =>
      if "economy" ∈ mcols then Except.ok (mcols, mrows2)
      else Except.error "economy column missing"

/-! ### The GDP categorizer (app.py lines 163-167)

`pd.cut(x, bins=[0, 1000, 5000, 15000, 50000, inf], labels=[...])` with
the pandas default `right=True`: the intervals are `(0, 1000]`,
`(1000, 5000]`, `(5000, 15000]`, `(15000, 50000]`, `(50000, inf]`, and
values outside every bin (including NaN, and values at or below 0) map to
NaN. -/

inductive GDPCategory where
  | lowIncome
  | lowerMiddle
  | upperMiddle
  | highIncome
  | veryHighIncome
deriving DecidableEq, Repr

def categorize (x : Option ℚ) : Option GDPCategory :=
  match x with
  | none => none
  | some v =>
    if v ≤ 0 then none
    else if v ≤ 1000 then some GDPCategory.lowIncome
    else if v ≤ 5000 then some GDPCategory.lowerMiddle
    else if v ≤ 15000 then some GDPCategory.upperMiddle
    else if v ≤ 50000 then some GDPCategory.highIncome
    else some GDPCategory.veryHighIncome

/-! ### Forward and backward fill (app.py line 161)

`df.fillna(method='ffill').fillna(method='bfill')` works per column over
the whole frame in row order, with no grouping by economy. -/

def ffillAux (last : Option ℚ) : List (Option ℚ) → List (Option ℚ)
  | [] => []
  | none :: vs => last :: ffillAux last vs
  | some x :: vs => some x :: ffillAux (some x) vs

def ffill (vs : List (Option ℚ)) : List (Option ℚ) := ffillAux none vs

def bfill (vs : List (Option ℚ)) : List (Option ℚ) := (ffillAux none vs.reverse).reverse

/-! ### End-to-end scenario (claim about NY.GDP.PCAP.CD, years 2010-2012)

The wide response of the batch fetch, with economies USA and FRA in the
order the claim lists them; FRA 2011 and both 2012 values are absent. -/

def scenarioWideCols : List String := ["economy", "YR2010", "YR2011", "YR2012"]

def scenarioWideRows : List (List Cell) :=
  [[Cell.str "USA", Cell.num 48000, Cell.num 50000, Cell.null],
   [Cell.str "FRA", Cell.num 40000, Cell.null, Cell.null]]

def scenarioResult : List String × List (List Cell) :=
  (normalize "GDP per Capita" scenarioWideCols scenarioWideRows).toOption.getD ([], [])

def scenarioLong : List (List Cell) := scenarioResult.2

def cellToRat : Cell → Option ℚ
  | Cell.num q => some q
  | _ => none

def gdpIdx : Nat :=
  (scenarioResult.1.findIdx? (fun x => x == "GDP per Capita")).getD 0

/-- GDP-per-capita column after the global forward-then-backward fill of
app.py line 161, in melt row order. -/
def scenarioGDPFilled : List (Option ℚ) :=
  bfill (ffill (scenarioLong.map (fun r => cellToRat (r.getD gdpIdx Cell.null))))

def scenarioTable : List (Cell × Cell × Option ℚ) :=
  (scenarioLong.zip scenarioGDPFilled).map
    (fun p => (p.1.getD 0 Cell.null, p.1.getD 1 Cell.null, p.2))

/-- Filled GDP value of the row of a given economy and year. -/
def scenarioValue (e : String) (y : ℚ) : Option (Option ℚ) :=
  (scenarioTable.find? (fun t => decide (t.1 = Cell.str e ∧ t.2.1 = Cell.num y))).map
    (fun t => t.2.2)

/-! ### Per-year fallback fetch (app.py lines 42-77)

On batch failure the fetcher issues one request per year of
`range(start_year, end_year + 1)`; each per-year failure (including a
response without the `economy` column, which spec section 4.1 counts as a
failure kind) is swallowed, successful years are melted to
`(economy, Year, value)` rows and concatenated, and the indicator is
skipped (`none`) exactly when no year produced a frame.  The per-year API
outcome is abstracted as `Option` over rows of (economy, value). -/

def yearRange (start_year end_year : Int) : List Int :=
  (List.range (end_year + 1 - start_year).toNat).map (fun i => start_year + (i : Int))

/-- Accumulated `yearly_frames`: the melted frame of every year whose
request succeeded, in year order. -/
def yearlyFrames (api : Int → Option (List (String × Option ℚ)))
    (start_year end_year : Int) : List (List (String × Int × Option ℚ)) :=
  (yearRange start_year end_year).filterMap
    (fun y => (api y).map (fun rows => rows.map (fun p => (p.1, y, p.2))))

def fallback_fetch (api : Int → Option (List (String × Option ℚ)))
    (start_year end_year : Int) : Option (List (String × Int × Option ℚ)) :=
  if (yearlyFrames api start_year end_year).isEmpty then none
  else some (yearlyFrames api start_year end_year).flatten

/-! ### Outer-join merge of indicator tables (app.py lines 36-40, 69-74)

Each indicator table has one row per (economy, Year) key carrying a
nullable value.  `pd.merge(acc, subset, on=['economy','Year'],
how='outer')` keeps the accumulator rows in order (appending the looked-up
value of the new table, NaN when absent) followed by the rows of the new
table whose key the accumulator lacks (their earlier value columns NaN).
The accumulator starts as the first successfully fetched table. -/

abbrev EconKey := String × Int

abbrev ITable := List (EconKey × Option ℚ)

abbrev MTable := List (EconKey × List (Option ℚ))

def keysOf (t : ITable) : List EconKey := t.map Prod.fst

def keysM (m : MTable) : List EconKey := m.map Prod.fst

def lookupKey (t : ITable) (k : EconKey) : Option ℚ :=
  match t.find? (fun p => decide (p.1 = k)) with
  | none => none
  | some p => p.2

def outerMergeStep (n : Nat) (acc : MTable) (t : ITable) : MTable :=
  acc.map (fun p => (p.1, p.2 ++ [lookupKey t p.1])) ++
    (t.filter (fun q => (acc.find? (fun p => decide (p.1 = q.1))).isNone)).map
      (fun q => (q.1, List.replicate n none ++ [q.2]))

def mergeAllAux : Nat → MTable → List ITable → MTable
  | _, acc, [] => acc
  | n, acc, t :: ts => mergeAllAux (n + 1) (outerMergeStep n acc t) ts

def initTable (t : ITable) : MTable := t.map (fun p => (p.1, [p.2]))

def mergeAll (t0 : ITable) (ts : List ITable) : MTable :=
  mergeAllAux 1 (initTable t0) ts

/-! ### Cache save and load (app.py lines 106-113)

`df.to_csv(path, index=False)` writes a header line then one comma-joined
line per row following the csv module QUOTE_MINIMAL convention: a field
containing the delimiter, a line break or the quote character is wrapped
in double quotes with every embedded quote doubled, any other field is
written bare, and a null cell becomes the empty field.  `pd.read_csv`
splits the stream into lines and fields only at separators outside quoted
regions, undoes the quoting, and reads an empty field back as null.  Text
is modelled as lists of characters; `nl` is the line break and `dq` the
double-quote character. -/

def nl : Char := Char.ofNat 10

def dq : Char := Char.ofNat 34

def joinWith (sep : Char) : List (List Char) → List Char
  | [] => []
  | [x] => x
  | x :: xs => x ++ sep :: joinWith sep xs

/-- Field needs quoting exactly when it holds the delimiter, a line break
or the quote character (csv QUOTE_MINIMAL). -/
def needsQuote (s : List Char) : Bool :=
  s.any (fun c => decide (c = ',' ∨ c = nl ∨ c = dq))

/-- Double every quote character (csv doublequote convention). -/
def escapeQuotes : List Char → List Char
  | [] => []
  | c :: cs => if c = dq then dq :: dq :: escapeQuotes cs else c :: escapeQuotes cs

def unescapeQuotes : List Char → List Char
  | [] => []
  | [c] => [c]
  | c1 :: c2 :: cs =>
    if c1 = dq ∧ c2 = dq then dq :: unescapeQuotes cs
    else c1 :: unescapeQuotes (c2 :: cs)

def writeField (s : List Char) : List Char :=
  if needsQuote s then dq :: (escapeQuotes s ++ [dq]) else s

def writeCell : Option (List Char) → List Char
  | none => []
  | some s => writeField s

def writeRow (r : List (Option (List Char))) : List Char :=
  joinWith ',' (r.map writeCell)

def saveCSV (header : List (List Char)) (rows : List (List (Option (List Char)))) :
    List Char :=
  joinWith nl (joinWith ',' (header.map writeField) :: rows.map writeRow)

/-- Quote parity after scanning a chunk: `true` inside a quoted region. -/
def qparity : List Char → Bool → Bool
  | [], b => b
  | c :: cs, b => qparity cs (if c = dq then !b else b)

/-- Splitter on a separator character, splitting only at occurrences that
lie outside quoted regions (the csv reading discipline). -/
def splitQA (sep : Char) : Bool → List Char → List (List Char)
  | _, [] => [[]]
  | b, c :: cs =>
    if c = sep ∧ b = false then [] :: splitQA sep false cs
    else
      match splitQA sep (if c = dq then !b else b) cs with
      | [] => [[c]]
      | g :: gs => (c :: g) :: gs

/-- Undo the writing convention on one field: a field opening with a quote
has its outer quotes stripped and doubled quotes collapsed, a bare field
is kept as is. -/
def unquoteField : List Char → List Char
  | [] => []
  | c :: cs => if c = dq then unescapeQuotes cs.dropLast else c :: cs

def parseCell (s : List Char) : Option (List Char) :=
  if s = [] then none else some s

def parseFields (s : List Char) : List (List Char) :=
  (splitQA ',' false s).map unquoteField

def parseRow (s : List Char) : List (Option (List Char)) :=
  (parseFields s).map parseCell

def loadCSV (s : List Char) : List (List Char) × List (List (Option (List Char))) :=
  match splitQA nl false s with
  | [] => ([], [])
  | h :: rs => (parseFields h, rs.map parseRow)

/-- Cells that survive the text round trip unchanged: a null, or a
non-empty string.  Only the empty string is excluded: it is written as the
empty field and read back as null, the column type coercion the claim
allows for. -/
def cleanCell : Option (List Char) → Prop
  | none => True
  | some s => s ≠ []

/-- No separator occurrence outside quoted regions anywhere in the chunk,
scanning from quote parity `b`. -/
def sepFreeQA (sep : Char) : List Char → Bool → Prop
  | [], _ => True
  | c :: cs, b => ¬(c = sep ∧ b = false) ∧ sepFreeQA sep cs (if c = dq then !b else b)

/-! ### Startup data loading (app.py lines 106-117)

If the cache file exists it is loaded and the fetcher is never invoked;
otherwise the fetcher runs (and a non-empty result is saved).  An empty
resulting table prints a diagnostic and exits with status 1 before the
dashboard server is constructed; otherwise the server starts and a normal
shutdown ends the process with status 0. -/

structure BootResult where
  exitCode : Nat
  serverStarted : Bool
  fetchAttempted : Bool
deriving DecidableEq, Repr

def boot (cacheExists : Bool) (cacheLoad fetchResult : List (String × Int × Option ℚ)) :
    BootResult :=
  if (if cacheExists then cacheLoad else fetchResult).isEmpty then
    ⟨1, false, !cacheExists⟩
  else ⟨0, true, !cacheExists⟩

/-! ### Metadata enrichment (app.py lines 139-153)

Metadata maps are partial (`Option`-valued); when the metadata fetch fails
they are all empty.  `Country Name` is the mapped name with the economy
code as fillna fallback; `Region_Code` is the mapped region code;
`Region` is the mapped region name with the raw region code as fillna
fallback. -/

def emptyMeta : String → Option String := fun _ => none

structure EnrichedRow where
  economy : String
  year : Int
  value : Option ℚ
  isoAlpha : String
  regionCode : Option String
  region : Option String
  countryName : String
deriving DecidableEq, Repr

def enrichRow (c2n c2r r2n : String → Option String) (r : String × Int × Option ℚ) :
    EnrichedRow :=
  let rc := c2r r.1
  let region0 := match rc with
    | none => none
    | some c => r2n c
  let region := match region0 with
    | none => rc
    | some nm => some nm
  ⟨r.1, r.2.1, r.2.2, r.1, rc, region, (c2n r.1).getD r.1⟩

def enrichTable (c2n c2r r2n : String → Option String)
    (df : List (String × Int × Option ℚ)) : List EnrichedRow :=
  df.map (enrichRow c2n c2r r2n)

/-! ### Aggregate filter (app.py lines 155-159)

The table is restricted to economies in the valid (non-aggregate) set;
when that restriction removes every row it is skipped and the raw table is
used. -/

def filterCountries (valid : List String) (df : List (String × Int × Option ℚ)) :
    List (String × Int × Option ℚ) :=
  if (df.filter (fun r => decide (r.1 ∈ valid))).isEmpty then df
  else df.filter (fun r => decide (r.1 ∈ valid))

/-! ## Theorems -/

/-- Claim C1 counterexample: `pd.cut` with the default `right=True` puts a
value exactly at a breakpoint into the lower bin, so 1000 is "Low Income"
(not "Lower Middle") and 50000 is "High Income" (not "Very High Income"). -/
theorem C1_counterexample :
    categorize (some 1000) ≠ some GDPCategory.lowerMiddle ∧
    categorize (some 50000) ≠ some GDPCategory.veryHighIncome := by
  decide

/-- Claim C1 (amended): the categorizer bins are open on the lower bound
and closed above, so a value exactly at a breakpoint belongs to the lower
bin: categorize(999) = "Low Income", categorize(1000) = "Low Income",
categorize(50000) = "High Income", and categorize(null) = null. -/
theorem C1_categorize_boundaries :
    categorize (some 999) = some GDPCategory.lowIncome ∧
    categorize (some 1000) = some GDPCategory.lowIncome ∧
    categorize (some 1001) = some GDPCategory.lowerMiddle ∧
    categorize (some 5000) = some GDPCategory.lowerMiddle ∧
    categorize (some 15000) = some GDPCategory.upperMiddle ∧
    categorize (some 50000) = some GDPCategory.highIncome ∧
    categorize (some 50001) = some GDPCategory.veryHighIncome ∧
    categorize none = none := by
  decide

/-- Claim C2 counterexample: in the end-to-end scenario the global,
ungrouped forward fill assigns FRA:2011 the value of the preceding melted
row (USA:2011 = 50000), not 40000; and 50000 is categorized "High Income",
not "Very High Income". -/
theorem C2_counterexample :
    scenarioValue "FRA" 2011 = some (some 50000) ∧
    some (some (50000 : ℚ)) ≠ some (some (40000 : ℚ)) ∧
    categorize (some 50000) ≠ some GDPCategory.veryHighIncome := by
  decide

/-- Claim C2 (amended): with the wide response listing USA before FRA, the
melted table is year-major; the ungrouped forward-then-backward fill makes
FRA:2011 equal 50000 (propagated from the preceding USA:2011 row), FRA:2010
keeps 40000, and every row of the scenario is categorized "High Income". -/
theorem C2_scenario_filled :
    scenarioValue "FRA" 2011 = some (some 50000) ∧
    scenarioValue "FRA" 2010 = some (some 40000) ∧
    scenarioValue "USA" 2010 = some (some 48000) ∧
    scenarioValue "USA" 2011 = some (some 50000) ∧
    (scenarioTable.map (fun t => categorize t.2.2)).all
      (fun c => decide (c = some GDPCategory.highIncome)) = true := by
  decide

/-- Claim C6: when neither the cache load (if the cache exists) nor the
fresh fetch (otherwise) produces a non-empty table, the process exits with
status 1 and the dashboard server is never started; whenever the server
does start, normal shutdown gives exit status 0. -/
theorem C6_exit_codes (ce : Bool) (cl fr : List (String × Int × Option ℚ)) :
    ((ce = true → cl = []) → (ce = false → fr = []) →
      (boot ce cl fr).exitCode = 1 ∧ (boot ce cl fr).serverStarted = false) ∧
    ((boot ce cl fr).serverStarted = true → (boot ce cl fr).exitCode = 0) := by
  constructor
  · intro h1 h2
    cases ce
    · rw [h2 rfl]; exact ⟨rfl, rfl⟩
    · rw [h1 rfl]; exact ⟨rfl, rfl⟩
  · intro hs
    unfold boot at hs ⊢
    by_cases h : (if ce = true then cl else fr).isEmpty = true
    · rw [if_pos h] at hs
      exact Bool.noConfusion hs
    · rw [if_neg h]

theorem C6_witness :
    (boot true [] [("USA", 2000, none)]).exitCode = 1 ∧
    (boot true [] [("USA", 2000, none)]).serverStarted = false :=
  (C6_exit_codes true [] [("USA", 2000, none)]).1 (fun _ => rfl)
    (fun h => Bool.noConfusion h)

/-- Claim C10: when the cache file exists but parses to an empty table the
process exits with status 1 and no server starts, and (whatever the cache
contents) the fetcher is never invoked when the cache file exists. -/
theorem C10_cache_presence_skips_fetch (cl fr : List (String × Int × Option ℚ)) :
    (boot true [] fr).exitCode = 1 ∧ (boot true [] fr).serverStarted = false ∧
    (boot true [] fr).fetchAttempted = false ∧
    (boot true cl fr).fetchAttempted = false := by
  refine ⟨rfl, rfl, rfl, ?_⟩
  unfold boot
  by_cases h : (if true = true then cl else fr).isEmpty = true
  · rw [if_pos h]
    rfl
  · rw [if_neg h]
    rfl

theorem C10_witness :
    (boot true [] [("USA", 2000, none)]).fetchAttempted = false ∧
    (boot true [] [("USA", 2000, none)]).exitCode = 1 :=
  ⟨(C10_cache_presence_skips_fetch [] [("USA", 2000, none)]).2.2.1,
   (C10_cache_presence_skips_fetch [] [("USA", 2000, none)]).1⟩

/-- Claim C7: enrichment looks display name and region code up by economy
code; with the metadata maps unavailable every row falls back to its
economy code as display name with an empty region, a region code missing
from the region-name map displays as the raw region code, and a present
country-name entry is used as the display name. -/
theorem C7_metadata_fallbacks :
    (∀ (df : List (String × Int × Option ℚ)),
      ∀ row ∈ enrichTable emptyMeta emptyMeta emptyMeta df,
        row.countryName = row.economy ∧ row.region = none) ∧
    (∀ (c2n c2r r2n : String → Option String) (r : String × Int × Option ℚ)
        (rc : String), c2r r.1 = some rc → r2n rc = none →
      (enrichRow c2n c2r r2n r).region = some rc) ∧
    (∀ (c2n c2r r2n : String → Option String) (r : String × Int × Option ℚ)
        (nm : String), c2n r.1 = some nm →
      (enrichRow c2n c2r r2n r).countryName = nm) := by
  refine ⟨?_, ?_, ?_⟩
  · intro df row hrow
    obtain ⟨r, _, rfl⟩ := List.mem_map.1 hrow
    exact ⟨rfl, rfl⟩
  · intro c2n c2r r2n r rc h1 h2
    simp [enrichRow, h1, h2]
  · intro c2n c2r r2n r nm h1
    simp [enrichRow, h1]

theorem C7_witness :
    (enrichRow emptyMeta emptyMeta emptyMeta ("USA", 2010, none)).countryName = "USA" ∧
    (enrichRow emptyMeta (fun e => if e = "USA" then some "NAC" else none) emptyMeta
      ("USA", 2010, none)).region = some "NAC" := by
  constructor
  · exact (C7_metadata_fallbacks.1 [("USA", 2010, none)]
      (enrichRow emptyMeta emptyMeta emptyMeta ("USA", 2010, none))
      (List.mem_map_of_mem _ (List.mem_singleton.2 rfl))).1
  · exact C7_metadata_fallbacks.2.1 emptyMeta
      (fun e => if e = "USA" then some "NAC" else none) emptyMeta
      ("USA", 2010, none) "NAC" (by simp) rfl

/-- Claim C8: the aggregate filter keeps exactly the rows whose economy is
in the valid set, is skipped (returning the unfiltered table) precisely
when it would remove every row, and therefore returns a non-empty table
whenever its input is non-empty. -/
theorem C8_aggregate_filter (valid : List String)
    (df : List (String × Int × Option ℚ)) :
    (df.filter (fun r => decide (r.1 ∈ valid)) ≠ [] →
      filterCountries valid df = df.filter (fun r => decide (r.1 ∈ valid))) ∧
    (df.filter (fun r => decide (r.1 ∈ valid)) = [] →
      filterCountries valid df = df) ∧
    (df ≠ [] → filterCountries valid df ≠ []) := by
  refine ⟨?_, ?_, ?_⟩
  · intro h
    unfold filterCountries
    rw [if_neg]
    simpa using h
  · intro h
    unfold filterCountries
    rw [if_pos]
    simpa using h
  · intro hdf
    unfold filterCountries
    split
    · exact hdf
    · next hemp => simpa using hemp

/-- Claim C3: when the batch fetch fails, one per-year request is issued
for every year of the range independently; any year that succeeds
contributes all of its rows to the result no matter which other years
fail, and the indicator is dropped (the fetch returns `none`) exactly when
every per-year request fails. -/
theorem C3_per_year_fallback (api : Int → Option (List (String × Option ℚ)))
    (start_year end_year : Int) :
    (∀ y ∈ yearRange start_year end_year, ∀ rows, api y = some rows →
      ∀ p ∈ rows, ∃ l, fallback_fetch api start_year end_year = some l ∧
        (p.1, y, p.2) ∈ l) ∧
    (fallback_fetch api start_year end_year = none ↔
      ∀ y ∈ yearRange start_year end_year, api y = none) := by
  constructor
  · intro y hy rows hrows p hp
    have hf : rows.map (fun p => (p.1, y, p.2)) ∈ yearlyFrames api start_year end_year :=
      List.mem_filterMap.2 ⟨y, hy, by rw [hrows]; rfl⟩
    have hne : (yearlyFrames api start_year end_year).isEmpty = false :=
      List.isEmpty_eq_false.2 (List.ne_nil_of_mem hf)
    refine ⟨(yearlyFrames api start_year end_year).flatten, ?_, ?_⟩
    · unfold fallback_fetch
      rw [hne]
      rfl
    · exact List.mem_flatten.2 ⟨_, hf, List.mem_map_of_mem _ hp⟩
  · constructor
    · intro h y hy
      by_cases hapi : api y = none
      · exact hapi
      · exfalso
        obtain ⟨rows, hrows⟩ := Option.ne_none_iff_exists'.1 hapi
        have hf : rows.map (fun p => (p.1, y, p.2)) ∈ yearlyFrames api start_year end_year :=
          List.mem_filterMap.2 ⟨y, hy, by rw [hrows]; rfl⟩
        have hne : (yearlyFrames api start_year end_year).isEmpty = false :=
          List.isEmpty_eq_false.2 (List.ne_nil_of_mem hf)
        unfold fallback_fetch at h
        rw [hne] at h
        exact Option.noConfusion h
    · intro h
      have hempty : yearlyFrames api start_year end_year = [] := by
        unfold yearlyFrames
        rw [List.filterMap_eq_nil_iff]
        intro y hy
        rw [h y hy]
        rfl
      unfold fallback_fetch
      rw [hempty]
      rfl

theorem C3_witness :
    ∃ l, fallback_fetch (fun y => if y = 2010 then some [("USA", some 5)] else none)
        2010 2012 = some l ∧ ("USA", (2010 : Int), (some (5 : ℚ))) ∈ l :=
  (C3_per_year_fallback (fun y => if y = 2010 then some [("USA", some 5)] else none)
      2010 2012).1 2010 (by decide) [("USA", some 5)] (by decide)
    ("USA", some 5) (by decide)

theorem C8_witness :
    filterCountries ["USA"] [("WLD", 2000, none)] = [("WLD", 2000, none)] ∧
    filterCountries ["USA"] [("WLD", 2000, none)] ≠ [] :=
  ⟨(C8_aggregate_filter ["USA"] [("WLD", 2000, none)]).2.1 (by decide),
   (C8_aggregate_filter ["USA"] [("WLD", 2000, none)]).2.2 (by decide)⟩

/-- Claim C9: applying the normalizer to its own (already-long) output is
a single deterministic defined failure, never a silent wrong result: the
melt step rejects the value column name, which is already a column of the
long frame, and the long frame indeed has no year (digit-named) columns to
unpivot.  The hypotheses only exclude indicator names that start with the
literal year-column marker `YR` or consist of digits. -/
theorem C9_normalize_long_fails (name : String) (cols : List String)
    (rows rows2 : List (List Cell)) (cols2 : List String)
    (hname : ¬ name.toList.take 2 = ['Y', 'R'])
    (hname2 : isDigitStr name = false)
    (h : normalize name cols rows = Except.ok (cols2, rows2)) :
    normalize name cols2 rows2 = Except.error "melt value_name collision" ∧
      cols2.filter (fun c => isDigitStr c) = [] := by
  have hcols : (cols.map stripYR).filter (fun c => !(isDigitStr c)) ++ ["Year", name]
      = cols2 := by
    simp only [normalize, melt] at h
    split at h
    · simp at h
    · rename_i mcols mrows heq1
      split at h
      · simp at h
      · split at h
        · rw [Except.ok.injEq, Prod.mk.injEq] at h
          split at heq1
          · simp at heq1
          · rw [Except.ok.injEq, Prod.mk.injEq] at heq1
            exact heq1.1.trans h.1
        · simp at h
  have hmem : name ∈ cols2 := by
    rw [← hcols]
    exact List.mem_append_right _ (by simp)
  have hstrip : stripYR name = name := by
    unfold stripYR
    rw [if_neg hname]
  have hmem2 : name ∈ cols2.map stripYR := by
    rw [← hstrip]
    exact List.mem_map_of_mem stripYR hmem
  constructor
  · simp only [normalize, melt]
    rw [if_pos hmem2]
  · have hYear : isDigitStr "Year" = false := by decide
    rw [← hcols, List.filter_append, List.filter_filter]
    simp [hname2, hYear]

theorem C9_witness :
    normalize "GDP per Capita" ["economy", "Year", "GDP per Capita"]
        [[Cell.str "USA", Cell.num 2010, Cell.num 48000]] =
      Except.error "melt value_name collision" :=
  (C9_normalize_long_fails "GDP per Capita" ["economy", "YR2010"]
    [[Cell.str "USA", Cell.num 48000]] [[Cell.str "USA", Cell.num 2010, Cell.num 48000]]
    ["economy", "Year", "GDP per Capita"] (by decide) (by decide) (by rfl)).1

/-! ### Helper lemmas for the outer-join merge -/

theorem getD_append_lt {α : Type} (l l2 : List α) (i : Nat) (d : α) (h : i < l.length) :
    (l ++ l2).getD i d = l.getD i d := by
  induction l generalizing i with
  | nil => simp at h
  | cons a l ih =>
    cases i with
    | zero => rfl
    | succ j => exact ih j (Nat.lt_of_succ_lt_succ h)

theorem getD_append_len {α : Type} (l l2 : List α) (d : α) :
    (l ++ l2).getD l.length d = l2.getD 0 d := by
  induction l with
  | nil => rfl
  | cons a l ih => simpa using ih

theorem getD_replicate_lt {α : Type} (n i : Nat) (a d : α) (h : i < n) :
    (List.replicate n a).getD i d = a := by
  induction n generalizing i with
  | zero => omega
  | succ m ih =>
    cases i with
    | zero => rfl
    | succ j => exact ih j (Nat.lt_of_succ_lt_succ h)

theorem keysM_outerMergeStep (n : Nat) (acc : MTable) (t : ITable) (k : EconKey)
    (h : k ∈ keysM acc) : k ∈ keysM (outerMergeStep n acc t) := by
  unfold keysM outerMergeStep
  rw [List.map_append]
  apply List.mem_append_left
  rw [List.map_map]
  obtain ⟨p, hp, hpk⟩ := List.mem_map.1 h
  exact List.mem_map.2 ⟨p, hp, hpk⟩

theorem keysM_step_of_table (n : Nat) (acc : MTable) (t : ITable) (k : EconKey)
    (h : k ∈ keysOf t) : k ∈ keysM (outerMergeStep n acc t) := by
  by_cases hacc : k ∈ keysM acc
  · exact keysM_outerMergeStep n acc t k hacc
  · obtain ⟨q, hq, hqk⟩ := List.mem_map.1 h
    unfold keysM outerMergeStep
    rw [List.map_append]
    apply List.mem_append_right
    rw [List.map_map]
    refine List.mem_map.2 ⟨q, ?_, hqk⟩
    refine List.mem_filter.2 ⟨hq, ?_⟩
    rw [Option.isNone_iff_eq_none, List.find?_eq_none]
    intro p hp hcontra
    have hpk : p.1 = q.1 := of_decide_eq_true hcontra
    exact hacc (by rw [← hqk, ← hpk]; exact List.mem_map_of_mem Prod.fst hp)

theorem keysM_mergeAllAux (ts : List ITable) :
    ∀ (n : Nat) (acc : MTable) (k : EconKey),
      k ∈ keysM acc → k ∈ keysM (mergeAllAux n acc ts) := by
  induction ts with
  | nil => intro n acc k h; exact h
  | cons t ts ih =>
    intro n acc k h
    exact ih (n + 1) (outerMergeStep n acc t) k (keysM_outerMergeStep n acc t k h)

theorem keysM_mergeAllAux_of_table (ts : List ITable) :
    ∀ (n : Nat) (acc : MTable) (k : EconKey),
      (∃ t ∈ ts, k ∈ keysOf t) → k ∈ keysM (mergeAllAux n acc ts) := by
  induction ts with
  | nil =>
    rintro n acc k ⟨t, ht, -⟩
    cases ht
  | cons t ts ih =>
    rintro n acc k ⟨t1, ht1, hk⟩
    rcases List.mem_cons.1 ht1 with rfl | h1
    · exact keysM_mergeAllAux ts (n + 1) _ k (keysM_step_of_table n acc t1 k hk)
    · exact ih (n + 1) _ k ⟨t1, h1, hk⟩

theorem width_outerMergeStep (n : Nat) (acc : MTable) (t : ITable)
    (hw : ∀ p ∈ acc, p.2.length = n) :
    ∀ p ∈ outerMergeStep n acc t, p.2.length = n + 1 := by
  intro p hp
  rcases List.mem_append.1 hp with h | h
  · obtain ⟨q, hq, rfl⟩ := List.mem_map.1 h
    simp [hw q hq]
  · obtain ⟨q, hq, rfl⟩ := List.mem_map.1 h
    simp

theorem width_mergeAllAux (ts : List ITable) :
    ∀ (n : Nat) (acc : MTable), (∀ p ∈ acc, p.2.length = n) →
      ∀ p ∈ mergeAllAux n acc ts, p.2.length = n + ts.length := by
  induction ts with
  | nil =>
    intro n acc hw p hp
    simpa using hw p hp
  | cons t ts ih =>
    intro n acc hw p hp
    have h1 := ih (n + 1) _ (width_outerMergeStep n acc t hw) p hp
    rw [List.length_cons]
    omega

/-- Entries in a column already present in the accumulator are never
changed by later merge steps: any row of the final merged table either
descends from an accumulator row (agreeing on that column) or was created
later with a null there. -/
theorem col_stable_mergeAllAux (ts : List ITable) :
    ∀ (n : Nat) (acc : MTable), (∀ p ∈ acc, p.2.length = n) →
      ∀ (i : Nat), i < n → ∀ (k : EconKey) (vs : List (Option ℚ)),
        (k, vs) ∈ mergeAllAux n acc ts →
        (∃ vs0, (k, vs0) ∈ acc ∧ vs.getD i none = vs0.getD i none) ∨
          vs.getD i none = none := by
  induction ts with
  | nil =>
    intro n acc hw i hi k vs h
    exact Or.inl ⟨vs, h, rfl⟩
  | cons t ts ih =>
    intro n acc hw i hi k vs h
    have hw1 := width_outerMergeStep n acc t hw
    rcases ih (n + 1) (outerMergeStep n acc t) hw1 i (by omega) k vs h with
      ⟨vs1, hmem, heq⟩ | hnone
    · rcases List.mem_append.1 hmem with h1 | h1
      · obtain ⟨q, hq, hqe⟩ := List.mem_map.1 h1
        have hk : q.1 = k := congrArg Prod.fst hqe
        have hv : vs1 = q.2 ++ [lookupKey t q.1] := (congrArg Prod.snd hqe).symm
        left
        refine ⟨q.2, ?_, ?_⟩
        · rw [← hk]
          exact hq
        · rw [heq, hv, getD_append_lt]
          rw [hw q hq]
          exact hi
      · obtain ⟨q, hq, hqe⟩ := List.mem_map.1 h1
        have hv : vs1 = List.replicate n none ++ [q.2] := (congrArg Prod.snd hqe).symm
        right
        rw [heq, hv, getD_append_lt _ _ _ _ (by simpa using hi), getD_replicate_lt _ _ _ _ hi]
    · exact Or.inr hnone

/-- Columns of tables that lack a key hold null in that key's merged row. -/
theorem null_col_mergeAllAux (ts : List ITable) :
    ∀ (n : Nat) (acc : MTable), (∀ p ∈ acc, p.2.length = n) →
      ∀ (k : EconKey) (vs : List (Option ℚ)), (k, vs) ∈ mergeAllAux n acc ts →
        ∀ (j : Nat) (hj : j < ts.length), k ∉ keysOf (ts.get ⟨j, hj⟩) →
          vs.getD (n + j) none = none := by
  induction ts with
  | nil =>
    intro n acc hw k vs h j hj
    simp at hj
  | cons t ts ih =>
    intro n acc hw k vs h j hj hnk
    have hw1 := width_outerMergeStep n acc t hw
    cases j with
    | zero =>
      rw [Nat.add_zero]
      rcases col_stable_mergeAllAux ts (n + 1) _ hw1 n (by omega) k vs h with
        ⟨vs1, hmem, heq⟩ | hnone
      · rcases List.mem_append.1 hmem with h1 | h1
        · obtain ⟨q, hq, hqe⟩ := List.mem_map.1 h1
          have hk : q.1 = k := congrArg Prod.fst hqe
          have hv : vs1 = q.2 ++ [lookupKey t q.1] := (congrArg Prod.snd hqe).symm
          rw [heq, hv, ← hw q hq, getD_append_len]
          show lookupKey t q.1 = none
          unfold lookupKey
          have hfind : t.find? (fun p => decide (p.1 = q.1)) = none := by
            rw [List.find?_eq_none]
            intro p hp hcontra
            have hpq : p.1 = q.1 := of_decide_eq_true hcontra
            exact hnk (by
              rw [← hk, ← hpq]
              exact List.mem_map_of_mem Prod.fst hp)
          rw [hfind]
        · obtain ⟨q, hq, hqe⟩ := List.mem_map.1 h1
          have hk : q.1 = k := congrArg Prod.fst hqe
          exact absurd (hk ▸ List.mem_map_of_mem Prod.fst (List.mem_filter.1 hq).1) hnk
      · exact hnone
    | succ j1 =>
      have h2 := ih (n + 1) _ hw1 k vs h j1 (Nat.lt_of_succ_lt_succ hj) hnk
      rw [show n + (j1 + 1) = (n + 1) + j1 by omega]
      exact h2

/-- Claim C4: merging N+1 indicator tables into the accumulator with an
outer join on (economy, Year) keeps every key present in any input (no row
is silently dropped), the merged row has one value column per table, and a
column whose table lacks the key holds null in that row. -/
theorem C4_outer_join_merge (t0 : ITable) (ts : List ITable) (k : EconKey) :
    ((k ∈ keysOf t0 ∨ ∃ t ∈ ts, k ∈ keysOf t) → k ∈ keysM (mergeAll t0 ts)) ∧
    (∀ vs, (k, vs) ∈ mergeAll t0 ts →
      vs.length = 1 + ts.length ∧
      (k ∉ keysOf t0 → vs.getD 0 none = none) ∧
      ∀ (j : Nat) (hj : j < ts.length), k ∉ keysOf (ts.get ⟨j, hj⟩) →
        vs.getD (1 + j) none = none) := by
  have hw0 : ∀ p ∈ initTable t0, p.2.length = 1 := by
    intro p hp
    obtain ⟨q, hq, rfl⟩ := List.mem_map.1 hp
    rfl
  constructor
  · rintro (h | h)
    · refine keysM_mergeAllAux ts 1 _ k ?_
      obtain ⟨q, hq, rfl⟩ := List.mem_map.1 h
      exact List.mem_map.2 ⟨(q.1, [q.2]), List.mem_map.2 ⟨q, hq, rfl⟩, rfl⟩
    · exact keysM_mergeAllAux_of_table ts 1 _ k h
  · intro vs hvs
    refine ⟨width_mergeAllAux ts 1 _ hw0 (k, vs) hvs, ?_, ?_⟩
    · intro hk0
      rcases col_stable_mergeAllAux ts 1 _ hw0 0 (by omega) k vs hvs with
        ⟨vs0, hmem, heq⟩ | hnone
      · exfalso
        obtain ⟨q, hq, hqe⟩ := List.mem_map.1 hmem
        have hk : q.1 = k := congrArg Prod.fst hqe
        exact hk0 (hk ▸ List.mem_map_of_mem Prod.fst hq)
      · exact hnone
    · exact fun j hj hk => null_col_mergeAllAux ts 1 _ hw0 k vs hvs j hj hk

theorem C4_witness :
    ("FRA", (2010 : Int)) ∈
      keysM (mergeAll [(("USA", 2010), some 1)] [[(("FRA", 2010), some 2)]]) ∧
    ([none, some (2 : ℚ)] : List (Option ℚ)).getD 0 none = none := by
  constructor
  · exact (C4_outer_join_merge [(("USA", 2010), some 1)] [[(("FRA", 2010), some 2)]]
      ("FRA", 2010)).1 (Or.inr ⟨[(("FRA", 2010), some 2)], by decide, by decide⟩)
  · exact ((C4_outer_join_merge [(("USA", 2010), some 1)] [[(("FRA", 2010), some 2)]]
      ("FRA", 2010)).2 [none, some 2] (by decide)).2.1 (by decide)

/-! ### Helper lemmas for the cache round trip -/

theorem qparity_append (xs ys : List Char) : ∀ b,
    qparity (xs ++ ys) b = qparity ys (qparity xs b) := by
  induction xs with
  | nil => intro b; rfl
  | cons c cs ih => intro b; exact ih (if c = dq then !b else b)

theorem sepFreeQA_append (sep : Char) (xs ys : List Char) : ∀ b,
    sepFreeQA sep xs b → sepFreeQA sep ys (qparity xs b) →
    sepFreeQA sep (xs ++ ys) b := by
  induction xs with
  | nil => intro b _ h2; exact h2
  | cons c cs ih =>
    intro b h1 h2
    exact ⟨h1.1, ih _ h1.2 h2⟩

theorem qparity_of_no_dq (xs : List Char) (h : ¬ dq ∈ xs) : ∀ b, qparity xs b = b := by
  induction xs with
  | nil => intro b; rfl
  | cons c cs ih =>
    intro b
    have hc : ¬ c = dq := fun hc => h (hc ▸ List.mem_cons_self c cs)
    have hcs : ¬ dq ∈ cs := fun hm => h (List.mem_cons_of_mem c hm)
    show qparity cs (if c = dq then !b else b) = b
    rw [if_neg hc]
    exact ih hcs b

theorem sepFreeQA_of_not_mem (sep : Char) (xs : List Char) (h : ¬ sep ∈ xs) : ∀ b,
    sepFreeQA sep xs b := by
  induction xs with
  | nil => intro b; trivial
  | cons c cs ih =>
    intro b
    have hc : ¬ c = sep := fun hc => h (hc ▸ List.mem_cons_self c cs)
    have hcs : ¬ sep ∈ cs := fun hm => h (List.mem_cons_of_mem c hm)
    exact ⟨fun hp => hc hp.1, ih hcs _⟩

theorem escapeQuotes_qparity (s : List Char) : ∀ b,
    qparity (escapeQuotes s) b = b := by
  induction s with
  | nil => intro b; rfl
  | cons c cs ih =>
    intro b
    by_cases hc : c = dq
    · subst hc
      show qparity (dq :: dq :: escapeQuotes cs) b = b
      show qparity (escapeQuotes cs) (if dq = dq then !(if dq = dq then !b else b)
        else (if dq = dq then !b else b)) = b
      rw [if_pos rfl, if_pos rfl, Bool.not_not]
      exact ih b
    · show qparity (if c = dq then dq :: dq :: escapeQuotes cs else c :: escapeQuotes cs) b = b
      rw [if_neg hc]
      show qparity (escapeQuotes cs) (if c = dq then !b else b) = b
      rw [if_neg hc]
      exact ih b

theorem escapeQuotes_sepFree (sep : Char) (hsep : ¬ sep = dq) (s : List Char) :
    sepFreeQA sep (escapeQuotes s) true := by
  induction s with
  | nil => trivial
  | cons c cs ih =>
    by_cases hc : c = dq
    · subst hc
      show sepFreeQA sep (dq :: dq :: escapeQuotes cs) true
      refine ⟨fun hp => Bool.noConfusion hp.2, ?_⟩
      show sepFreeQA sep (dq :: escapeQuotes cs) (if dq = dq then !true else true)
      rw [if_pos rfl]
      refine ⟨fun hp => hsep hp.1.symm, ?_⟩
      show sepFreeQA sep (escapeQuotes cs) (if dq = dq then !false else false)
      rw [if_pos rfl]
      exact ih
    · show sepFreeQA sep (if c = dq then dq :: dq :: escapeQuotes cs
        else c :: escapeQuotes cs) true
      rw [if_neg hc]
      refine ⟨fun hp => Bool.noConfusion hp.2, ?_⟩
      show sepFreeQA sep (escapeQuotes cs) (if c = dq then !true else true)
      rw [if_neg hc]
      exact ih

/-- Every written field is safe to split around: it has no unquoted
delimiter or line break and leaves the quote parity balanced. -/
theorem writeField_safe (sep : Char) (hsep : sep = ',' ∨ sep = nl) (s : List Char) :
    sepFreeQA sep (writeField s) false ∧ qparity (writeField s) false = false := by
  have hsd : ¬ sep = dq := by
    rcases hsep with rfl | rfl <;> decide
  unfold writeField
  by_cases hq : needsQuote s = true
  · rw [if_pos hq]
    constructor
    · refine ⟨fun hp => hsd hp.1.symm, ?_⟩
      show sepFreeQA sep (escapeQuotes s ++ [dq]) (if dq = dq then !false else false)
      rw [if_pos rfl]
      refine sepFreeQA_append sep _ [dq] true (escapeQuotes_sepFree sep hsd s) ?_
      rw [escapeQuotes_qparity]
      exact ⟨fun hp => Bool.noConfusion hp.2, trivial⟩
    · show qparity (escapeQuotes s ++ [dq]) (if dq = dq then !false else false) = false
      rw [if_pos rfl, qparity_append, escapeQuotes_qparity]
      rfl
  · rw [if_neg hq]
    have hnm : ¬ sep ∈ s := by
      intro hm
      apply hq
      unfold needsQuote
      rw [List.any_eq_true]
      refine ⟨sep, hm, ?_⟩
      rcases hsep with rfl | rfl <;> simp
    have hnd : ¬ dq ∈ s := by
      intro hm
      apply hq
      unfold needsQuote
      rw [List.any_eq_true]
      exact ⟨dq, hm, by simp⟩
    exact ⟨sepFreeQA_of_not_mem sep s hnm false, qparity_of_no_dq s hnd false⟩

theorem writeCell_safe (sep : Char) (hsep : sep = ',' ∨ sep = nl)
    (c : Option (List Char)) :
    sepFreeQA sep (writeCell c) false ∧ qparity (writeCell c) false = false := by
  cases c with
  | none => exact ⟨trivial, rfl⟩
  | some s => exact writeField_safe sep hsep s

theorem joinWith_safe (sep j : Char) (hj1 : ¬ j = sep) (hj2 : ¬ j = dq)
    (xss : List (List Char))
    (h : ∀ xs ∈ xss, sepFreeQA sep xs false ∧ qparity xs false = false) :
    sepFreeQA sep (joinWith j xss) false ∧ qparity (joinWith j xss) false = false := by
  induction xss with
  | nil => exact ⟨trivial, rfl⟩
  | cons x xss ih =>
    cases xss with
    | nil => exact h x (List.mem_cons_self x [])
    | cons y yss =>
      have hx := h x (List.mem_cons_self _ _)
      have hrest := ih (fun xs hxs => h xs (List.mem_cons_of_mem x hxs))
      constructor
      · refine sepFreeQA_append sep x (j :: joinWith j (y :: yss)) false hx.1 ?_
        rw [hx.2]
        refine ⟨fun hp => hj1 hp.1, ?_⟩
        rw [if_neg hj2]
        exact hrest.1
      · show qparity (x ++ j :: joinWith j (y :: yss)) false = false
        rw [qparity_append, hx.2]
        show qparity (joinWith j (y :: yss)) (if j = dq then !false else false) = false
        rw [if_neg hj2]
        exact hrest.2

theorem splitQA_append (sep : Char) (xs rest : List Char) : ∀ b,
    sepFreeQA sep xs b → qparity xs b = false →
    splitQA sep b (xs ++ sep :: rest) = xs :: splitQA sep false rest := by
  induction xs with
  | nil =>
    intro b h1 h2
    have hb : b = false := h2
    subst hb
    show splitQA sep false (sep :: rest) = [] :: splitQA sep false rest
    rw [splitQA, if_pos ⟨rfl, rfl⟩]
  | cons c cs ih =>
    intro b h1 h2
    obtain ⟨hc, hrest⟩ := h1
    have h2b : qparity cs (if c = dq then !b else b) = false := h2
    show splitQA sep b (c :: (cs ++ sep :: rest)) = (c :: cs) :: splitQA sep false rest
    rw [splitQA, if_neg hc, ih _ hrest h2b]

theorem splitQA_single (sep : Char) (xs : List Char) : ∀ b,
    sepFreeQA sep xs b → splitQA sep b xs = [xs] := by
  induction xs with
  | nil => intro b _; rfl
  | cons c cs ih =>
    intro b h
    obtain ⟨hc, hrest⟩ := h
    rw [splitQA, if_neg hc, ih _ hrest]

theorem splitQA_joinWith (sep : Char) (xss : List (List Char)) (hne : xss ≠ [])
    (h : ∀ xs ∈ xss, sepFreeQA sep xs false ∧ qparity xs false = false) :
    splitQA sep false (joinWith sep xss) = xss := by
  induction xss with
  | nil => exact absurd rfl hne
  | cons x xss ih =>
    cases xss with
    | nil => exact splitQA_single sep x false (h x (List.mem_cons_self x [])).1
    | cons y yss =>
      show splitQA sep false (x ++ sep :: joinWith sep (y :: yss)) = x :: y :: yss
      rw [splitQA_append sep x _ false (h x (List.mem_cons_self _ _)).1
        (h x (List.mem_cons_self _ _)).2]
      rw [ih (by simp) (fun xs hxs => h xs (List.mem_cons_of_mem x hxs))]

theorem escapeQuotes_eq_nil (s : List Char) (h : escapeQuotes s = []) : s = [] := by
  cases s with
  | nil => rfl
  | cons c cs =>
    exfalso
    by_cases hc : c = dq
    · rw [escapeQuotes, if_pos hc] at h
      exact List.noConfusion h
    · rw [escapeQuotes, if_neg hc] at h
      exact List.noConfusion h

theorem unescape_escape_append (s : List Char) : ∀ t,
    unescapeQuotes (escapeQuotes s ++ t) = s ++ unescapeQuotes t := by
  induction s with
  | nil => intro t; rfl
  | cons c cs ih =>
    intro t
    by_cases hc : c = dq
    · subst hc
      show unescapeQuotes (dq :: dq :: (escapeQuotes cs ++ t)) = dq :: (cs ++ unescapeQuotes t)
      show dq :: unescapeQuotes (escapeQuotes cs ++ t) = dq :: (cs ++ unescapeQuotes t)
      rw [ih t]
    · have he : escapeQuotes (c :: cs) = c :: escapeQuotes cs := by
        rw [escapeQuotes, if_neg hc]
      rw [he]
      show unescapeQuotes (c :: (escapeQuotes cs ++ t)) = c :: (cs ++ unescapeQuotes t)
      cases hX : escapeQuotes cs ++ t with
      | nil =>
        obtain ⟨h1, h2⟩ := List.append_eq_nil.1 hX
        have hcs := escapeQuotes_eq_nil cs h1
        subst hcs
        subst h2
        rfl
      | cons r1 r2 =>
        have hu : unescapeQuotes (c :: r1 :: r2) = c :: unescapeQuotes (r1 :: r2) := by
          rw [unescapeQuotes, if_neg (fun hp => hc hp.1)]
        rw [hu, ← hX, ih t]

theorem unquoteField_writeField (s : List Char) : unquoteField (writeField s) = s := by
  unfold writeField
  by_cases hq : needsQuote s = true
  · rw [if_pos hq]
    rw [unquoteField, if_pos rfl, List.dropLast_concat]
    have h := unescape_escape_append s []
    simpa [unescapeQuotes] using h
  · rw [if_neg hq]
    cases s with
    | nil => rfl
    | cons c cs =>
      have hc : ¬ c = dq := by
        intro hcd
        apply hq
        unfold needsQuote
        rw [List.any_eq_true]
        exact ⟨c, List.mem_cons_self c cs, by subst hcd; simp⟩
      rw [unquoteField, if_neg hc]

theorem cell_roundtrip (c : Option (List Char)) (h : cleanCell c) :
    parseCell (unquoteField (writeCell c)) = c := by
  cases c with
  | none => rfl
  | some s =>
    show parseCell (unquoteField (writeField s)) = some s
    rw [unquoteField_writeField]
    unfold parseCell
    rw [if_neg h]

theorem row_roundtrip (r : List (Option (List Char))) (hr : r ≠ [])
    (hc : ∀ c ∈ r, cleanCell c) : parseRow (writeRow r) = r := by
  have hsplit : splitQA ',' false (joinWith ',' (r.map writeCell)) = r.map writeCell := by
    refine splitQA_joinWith ',' (r.map writeCell) (by simpa using hr) ?_
    intro xs hxs
    obtain ⟨c, hcr, rfl⟩ := List.mem_map.1 hxs
    exact writeCell_safe ',' (Or.inl rfl) c
  unfold parseRow parseFields writeRow
  rw [hsplit, List.map_map, List.map_map]
  have hid : ∀ c ∈ r, ((parseCell ∘ unquoteField) ∘ writeCell) c = c :=
    fun c hcr => cell_roundtrip c (hc c hcr)
  rw [List.map_congr_left hid]
  simp

theorem header_roundtrip (header : List (List Char)) (hh : header ≠ []) :
    parseFields (joinWith ',' (header.map writeField)) = header := by
  have hsplit : splitQA ',' false (joinWith ',' (header.map writeField))
      = header.map writeField := by
    refine splitQA_joinWith ',' _ (by simpa using hh) ?_
    intro xs hxs
    obtain ⟨f, hf, rfl⟩ := List.mem_map.1 hxs
    exact writeField_safe ',' (Or.inl rfl) f
  unfold parseFields
  rw [hsplit, List.map_map]
  have hid : ∀ f ∈ header, (unquoteField ∘ writeField) f = f :=
    fun f _ => unquoteField_writeField f
  rw [List.map_congr_left hid]
  simp

/-- Claim C5: saving a table to the cache file and loading it back returns
the table unchanged, for any non-empty header and rows whose cells are
null or non-empty — including cells holding the field delimiter, line
breaks or quote characters, which the QUOTE_MINIMAL writing convention
round-trips losslessly.  Only empty-string cells are excluded: they are
written as the empty field and read back as null, the column type
coercion the claim allows for. -/
theorem C5_cache_roundtrip (header : List (List Char))
    (rows : List (List (Option (List Char))))
    (hh : header ≠ [])
    (hrows : ∀ r ∈ rows, r ≠ [] ∧ ∀ c ∈ r, cleanCell c) :
    loadCSV (saveCSV header rows) = (header, rows) := by
  have hlines : splitQA nl false
      (joinWith nl (joinWith ',' (header.map writeField) :: rows.map writeRow))
      = joinWith ',' (header.map writeField) :: rows.map writeRow := by
    refine splitQA_joinWith nl _ (by simp) ?_
    intro line hline
    rcases List.mem_cons.1 hline with rfl | h1
    · refine joinWith_safe nl ',' (by decide) (by decide) _ ?_
      intro xs hxs
      obtain ⟨f, hf, rfl⟩ := List.mem_map.1 hxs
      exact writeField_safe nl (Or.inr rfl) f
    · obtain ⟨r, hr, rfl⟩ := List.mem_map.1 h1
      unfold writeRow
      refine joinWith_safe nl ',' (by decide) (by decide) _ ?_
      intro xs hxs
      obtain ⟨c, hcr, rfl⟩ := List.mem_map.1 hxs
      exact writeCell_safe nl (Or.inr rfl) c
  unfold saveCSV loadCSV
  rw [hlines]
  show (parseFields (joinWith ',' (header.map writeField)),
    (rows.map writeRow).map parseRow) = (header, rows)
  rw [header_roundtrip header hh, List.map_map]
  have hid : ∀ r ∈ rows, (parseRow ∘ writeRow) r = r :=
    fun r hr => row_roundtrip r (hrows r hr).1 (hrows r hr).2
  rw [List.map_congr_left hid]
  simp

theorem C5_witness :
    loadCSV (saveCSV [['n'], ['v']]
        [[some ['K', ',', 'R'], some ['4']], [none, some ['5']]]) =
      ([['n'], ['v']], [[some ['K', ',', 'R'], some ['4']], [none, some ['5']]]) := by
  refine C5_cache_roundtrip [['n'], ['v']]
    [[some ['K', ',', 'R'], some ['4']], [none, some ['5']]] (by simp) ?_
  intro r hr
  rcases List.mem_cons.1 hr with rfl | hr1
  · refine ⟨by simp, ?_⟩
    intro c hcm
    rcases List.mem_cons.1 hcm with rfl | hcm1
    · show (['K', ',', 'R'] : List Char) ≠ []
      simp
    · rcases List.mem_cons.1 hcm1 with rfl | hcm2
      · show (['4'] : List Char) ≠ []
        simp
      · cases hcm2
  · rcases List.mem_cons.1 hr1 with rfl | hr2
    · refine ⟨by simp, ?_⟩
      intro c hcm
      rcases List.mem_cons.1 hcm with rfl | hcm1
      · trivial
      · rcases List.mem_cons.1 hcm1 with rfl | hcm2
        · show (['5'] : List Char) ≠ []
          simp
        · cases hcm2
    · cases hr2

end WB
